import Mathlib

/-!
Verification of the project-resolution engine of `play-cli` (src/utils.ts).

Strings are modelled as `List Char`, JavaScript numbers that the code uses as
integers (timestamps, page numbers, lengths) as `Int`/`Nat`, and similarity
scores as exact rationals `ℚ`.  Filesystem effects of the directory scanner
are passed in explicitly as functions returning `Option` (with `none`
modelling a rejected promise).
-/

namespace PlayCli

/-- JavaScript per-character case folding, modelling `String.prototype.toLowerCase`
as used in `calculateSimilarity` (src/utils.ts, lines 66-67). -/
def tolow (s : List Char) : List Char := s.map Char.toLower

/-- Textbook unit-cost Levenshtein edit distance (insertion, deletion and
substitution each cost 1), modelled from the specification wording in §4.3. -/
def levenshtein : List Char → List Char → Nat
  | [], ys => ys.length
  | _ :: xs, [] => xs.length + 1
  | x :: xs, y :: ys =>
      min (levenshtein xs (y :: ys) + 1)
        (min (levenshtein (x :: xs) ys + 1)
          (levenshtein xs ys + (if x = y then 0 else 1)))

/-- The dynamic-programming matrix built by `calculateSimilarity`
(src/utils.ts, lines 73-87): `levMatrix s1 s2 j i` is `matrix[j][i]`.
`matrix[0][i] = i`, `matrix[j][0] = j`, and the inner cell uses the cost of
comparing `s1[i-1]` with `s2[j-1]`. -/
def levMatrix (s1 s2 : List Char) : Nat → Nat → Nat
  | 0, i => i
  | j + 1, 0 => j + 1
  | j + 1, i + 1 =>
      min (levMatrix s1 s2 (j + 1) i + 1)
        (min (levMatrix s1 s2 j (i + 1) + 1)
          (levMatrix s1 s2 j i + (if s1.getD i ' ' = s2.getD j ' ' then 0 else 1)))
termination_by j i => (j, i)

/-- `calculateSimilarity` from src/utils.ts (lines 65-91): case-fold both
strings; equal strings score 1; a containment either way scores 0.8; otherwise
`1 - matrix[s2.length][s1.length] / max(s1.length, s2.length)`, with the
division-by-zero guard returning 1. -/
def calculateSimilarity (str1 str2 : List Char) : ℚ :=
  let s1 := tolow str1
  let s2 := tolow str2
  if s1 = s2 then 1
  else if s2 <:+: s1 ∨ s1 <:+: s2 then 8 / 10
  else
    let maxLength := max s1.length s2.length
    if maxLength = 0 then 1
    else 1 - (levMatrix s1 s2 s2.length s1.length : ℚ) / (maxLength : ℚ)

/-- `ProjectInfo` from src/utils.ts (lines 4-10); `modifiedTime` is the
millisecond timestamp `Date.prototype.getTime` yields. -/
structure ProjectInfo where
  name : List Char
  path : List Char
  fullPath : List Char
  relativePath : List Char
  modifiedTime : Int
  deriving DecidableEq, Repr

/-- `sortProjectsByDate` from src/utils.ts (lines 57-59): a copy of the input
sorted with the stable `Array.prototype.sort` under the comparator
`(a, b) => b.modifiedTime.getTime() - a.modifiedTime.getTime()`. -/
def sortProjectsByDate (projects : List ProjectInfo) : List ProjectInfo :=
  projects.mergeSort fun a b => decide (b.modifiedTime ≤ a.modifiedTime)

/-- The anonymous `{ project, score }` records produced by
`fuzzyMatchProjects` (src/utils.ts, lines 100-106). -/
structure ScoredMatch where
  project : ProjectInfo
  score : ℚ
  deriving DecidableEq, Repr

/-- ECMAScript `String.prototype.trim`: whitespace stripped from both ends. -/
def jsTrim (s : List Char) : List Char :=
  ((s.dropWhile Char.isWhitespace).reverse.dropWhile Char.isWhitespace).reverse

/-- The intermediate `matches` array of `fuzzyMatchProjects`
(src/utils.ts, lines 103-106). -/
def fuzzyScored (projects : List ProjectInfo) (searchTerm : List Char) :
    List ScoredMatch :=
  projects.map fun project =>
    ScoredMatch.mk project (calculateSimilarity project.name searchTerm)

/-- The `matches.filter(match => match.score > 0.3)` step of
`fuzzyMatchProjects` (src/utils.ts, line 109). -/
def fuzzyKept (projects : List ProjectInfo) (searchTerm : List Char) :
    List ScoredMatch :=
  (fuzzyScored projects searchTerm).filter fun m => decide ((3 : ℚ) / 10 < m.score)

/-- `fuzzyMatchProjects` from src/utils.ts (lines 97-111): blank queries give
`[]`; otherwise score every project, keep scores above 0.3, and sort
descending by score with the stable `Array.prototype.sort`. -/
def fuzzyMatchProjects (projects : List ProjectInfo) (searchTerm : List Char) :
    List ScoredMatch :=
  if jsTrim searchTerm = [] then []
  else
    (fuzzyKept projects searchTerm).mergeSort fun a b => decide (b.score ≤ a.score)

/-- The result record of `paginateResults` (src/utils.ts, line 120). -/
structure Page (T : Type) where
  items : List T
  totalPages : Nat
  currentPage : Int
  totalItems : Nat
  deriving DecidableEq, Repr

/-- ECMAScript `Array.prototype.slice` with two integer arguments: negative
indices count from the end, and both indices are clamped to `[0, length]`. -/
def jsSlice {α : Type} (l : List α) (start stop : Int) : List α :=
  let len : Int := l.length
  let s : Int := if start < 0 then max (len + start) 0 else min start len
  let e : Int := if stop < 0 then max (len + stop) 0 else min stop len
  (l.drop s.toNat).take (e - s).toNat

/-- `paginateResults` from src/utils.ts (lines 116-133).  `Math.ceil` of the
division of naturals is `(totalItems + pageSize - 1) / pageSize` for the
positive page sizes the specification admits (`pageSize ≥ 1`). -/
def paginateResults {T : Type} (items : List T) (page : Int) (pageSize : Nat) :
    Page T :=
  let totalItems := items.length
  let totalPages := (totalItems + pageSize - 1) / pageSize
  let currentPage : Int := min (max page 1) (totalPages : Int)
  let startIndex : Int := (currentPage - 1) * (pageSize : Int)
  let endIndex : Int := startIndex + (pageSize : Int)
  Page.mk (jsSlice items startIndex endIndex) totalPages currentPage totalItems

/-- `getLatestProject` from src/utils.ts (lines 178-181): `null` on an empty
list, otherwise the head of the date-sorted copy. -/
def getLatestProject (projects : List ProjectInfo) : Option ProjectInfo :=
  if projects.length = 0 then none
  else (sortProjectsByDate projects).head?

/-- A `Dirent` as returned by `fs.readdir(dir, { withFileTypes: true })`. -/
structure DirEntry where
  name : List Char
  isDirectory : Bool
  deriving DecidableEq, Repr

/-- Model of `path.join(a, b)` for the plain two-segment joins performed in
`getProjectsList` (src/utils.ts, lines 30-31). -/
def pathJoin (a b : List Char) : List Char := a ++ '/' :: b

/-- The intermediate `projectDirectories` records of `getProjectsList`
(src/utils.ts, lines 26-32). -/
structure ProjectDir where
  name : List Char
  fullPath : List Char
  relativePath : List Char
  deriving DecidableEq, Repr

/-- Model of `Promise.all(projectDirectories.map(async project => ...))` in
`getProjectsList` (src/utils.ts, lines 34-45): each entry is stat'ed, and a
single rejected `fs.stat` (modelled by `stat` returning `none`) rejects the
whole combined promise. -/
def statAll (stat : List Char → Option Int) :
    List ProjectDir → Option (List ProjectInfo)
  | [] => some []
  | p :: ps =>
    match stat p.fullPath, statAll stat ps with
    | some t, some rest =>
        some (ProjectInfo.mk p.name p.name p.fullPath p.relativePath t :: rest)
    | _, _ => none

/-- `getProjectsList` from src/utils.ts (lines 16-52), with the environment
and the filesystem passed in explicitly: `projectsDir` models
`process.env.PLAYCLI_PROJECTS_DIR`, `readdir` models `fs.readdir` and `stat`
models `fs.stat`, `none` standing for a rejected promise.  Any rejection
inside the `try` block reaches the `catch`, which returns `[]`. -/
def getProjectsList (projectsDir : Option (List Char))
    (readdir : List Char → Option (List DirEntry))
    (stat : List Char → Option Int) : List ProjectInfo :=
  match projectsDir with
  | none => []
  | some dir =>
    match readdir dir with
    | none => []
    | some entries =>
      let projectDirectories := (entries.filter fun e => e.isDirectory).map
        fun e => ProjectDir.mk e.name (pathJoin dir e.name)
          (pathJoin ("Projects".toList) e.name)
      match statAll stat projectDirectories with
      | none => []
      | some projectsWithStats => projectsWithStats

/-- Concrete candidate records used to instantiate the general theorems. -/
def demoProjects : List ProjectInfo :=
  [ProjectInfo.mk ("Sample".toList) ("Sample".toList) ("Sample".toList)
      ("Sample".toList) 100,
   ProjectInfo.mk ("My Test Algorithm".toList) ("My Test Algorithm".toList)
      ("My Test Algorithm".toList) ("My Test Algorithm".toList) 200,
   ProjectInfo.mk ("Another".toList) ("Another".toList) ("Another".toList)
      ("Another".toList) 50]

/-- A single concrete record, used to instantiate `getLatestProject`. -/
def wLatest : ProjectInfo :=
  ProjectInfo.mk ("solo".toList) ("solo".toList) ("solo".toList) ("solo".toList) 100

/-- Concrete directory root for instantiating the scanner. -/
def cexDir : List Char := "root".toList

/-- Concrete directory listing with two subdirectories `a` and `b`. -/
def cexEntries : List DirEntry :=
  [DirEntry.mk ("a".toList) true, DirEntry.mk ("b".toList) true]

/-- Concrete `fs.readdir` model: succeeds exactly on `cexDir`. -/
def cexReaddir (d : List Char) : Option (List DirEntry) :=
  if d = cexDir then some cexEntries else none

/-- Concrete `fs.stat` model: rejects for entry `a`, succeeds for entry `b`. -/
def cexStat (p : List Char) : Option Int :=
  if p = pathJoin cexDir ("b".toList) then some 5 else none

example : (paginateResults ([] : List Nat) 3 10).totalPages = 0 := by decide
example : (paginateResults (List.range 25) 1000 10).currentPage = 3 := by decide
example : (paginateResults (List.range 25) 1000 10).items = [20, 21, 22, 23, 24] := by
  decide

/-! ### Properties of the Levenshtein recurrence -/

theorem levenshtein_nil_left (ys : List Char) : levenshtein [] ys = ys.length := by
  simp [levenshtein]

theorem levenshtein_nil_right (xs : List Char) : levenshtein xs [] = xs.length := by
  cases xs <;> simp [levenshtein]

theorem levenshtein_cons_cons (x y : Char) (xs ys : List Char) :
    levenshtein (x :: xs) (y :: ys) =
      min (levenshtein xs (y :: ys) + 1)
        (min (levenshtein (x :: xs) ys + 1)
          (levenshtein xs ys + (if x = y then 0 else 1))) := by
  simp [levenshtein]

/-- Rearranging nested minima: both sides are the minimum of the same nine
quantities. -/
theorem min_exchange (P1 P2 P3 Q1 Q2 Q3 R1 R2 R3 c k : Nat) :
    min (min (P1 + 1) (min (P2 + 1) (P3 + c)) + 1)
      (min (min (Q1 + 1) (min (Q2 + 1) (Q3 + c)) + 1)
        (min (R1 + 1) (min (R2 + 1) (R3 + c)) + k))
    = min (min (P1 + 1) (min (Q1 + 1) (R1 + k)) + 1)
        (min (min (P2 + 1) (min (Q2 + 1) (R2 + k)) + 1)
          (min (P3 + 1) (min (Q3 + 1) (R3 + k)) + c)) := by
  refine le_antisymm ?_ ?_ <;>
    simp only [le_min_iff, min_le_iff] <;>
    omega

/-- Peeling the final characters of both arguments satisfies the same
recurrence as peeling the initial characters. -/
theorem levenshtein_snoc (A B : List Char) (a b : Char) :
    levenshtein (A ++ [a]) (B ++ [b]) =
      min (levenshtein A (B ++ [b]) + 1)
        (min (levenshtein (A ++ [a]) B + 1)
          (levenshtein A B + (if a = b then 0 else 1))) := by
  match A, B with
  | [], [] =>
    simp [levenshtein]
  | [], y :: B' =>
    have ih := levenshtein_snoc [] B' a b
    simp only [List.nil_append, List.cons_append] at ih ⊢
    rw [levenshtein_cons_cons a y [] (B' ++ [b]), ih,
      levenshtein_cons_cons a y [] B']
    simp only [levenshtein_nil_left, levenshtein_nil_right, List.length_append,
      List.length_cons, List.length_nil]
    generalize levenshtein [a] B' = L
    generalize (if a = b then (0 : Nat) else 1) = cab
    generalize (if a = y then (0 : Nat) else 1) = cay
    refine le_antisymm ?_ ?_ <;> simp only [le_min_iff, min_le_iff] <;> omega
  | x :: A', [] =>
    have ih := levenshtein_snoc A' [] a b
    simp only [List.nil_append, List.cons_append] at ih ⊢
    rw [levenshtein_cons_cons x b (A' ++ [a]) [], ih,
      levenshtein_cons_cons x b A' []]
    simp only [levenshtein_nil_left, levenshtein_nil_right, List.length_append,
      List.length_cons, List.length_nil]
    generalize levenshtein A' [b] = L
    generalize (if a = b then (0 : Nat) else 1) = cab
    generalize (if x = b then (0 : Nat) else 1) = cxb
    refine le_antisymm ?_ ?_ <;> simp only [le_min_iff, min_le_iff] <;> omega
  | x :: A', y :: B' =>
    have ih1 := levenshtein_snoc A' (y :: B') a b
    have ih2 := levenshtein_snoc (x :: A') B' a b
    have ih3 := levenshtein_snoc A' B' a b
    simp only [List.cons_append] at ih1 ih2 ih3 ⊢
    rw [levenshtein_cons_cons x y (A' ++ [a]) (B' ++ [b]),
      levenshtein_cons_cons x y A' (B' ++ [b]),
      levenshtein_cons_cons x y (A' ++ [a]) B',
      levenshtein_cons_cons x y A' B', ih1, ih2, ih3]
    exact min_exchange _ _ _ _ _ _ _ _ _ _ _
termination_by A.length + B.length

/-- The Levenshtein distance is invariant under reversing both arguments. -/
theorem levenshtein_reverse (A B : List Char) :
    levenshtein A.reverse B.reverse = levenshtein A B := by
  match A, B with
  | [], B =>
    simp [levenshtein_nil_left]
  | x :: A', [] =>
    simp [levenshtein_nil_right]
  | x :: A', y :: B' =>
    have ih1 := levenshtein_reverse A' (y :: B')
    have ih2 := levenshtein_reverse (x :: A') B'
    have ih3 := levenshtein_reverse A' B'
    simp only [List.reverse_cons] at ih1 ih2 ⊢
    rw [levenshtein_snoc, levenshtein_cons_cons, ih1, ih2, ih3]
termination_by A.length + B.length

/-- The unit-cost Levenshtein distance never exceeds the longer length. -/
theorem levenshtein_le_max (A B : List Char) :
    levenshtein A B ≤ max A.length B.length := by
  match A, B with
  | [], B =>
    simp [levenshtein_nil_left]
  | x :: A', [] =>
    simp [levenshtein_nil_right]
  | x :: A', y :: B' =>
    have ih := levenshtein_le_max A' B'
    have hc : (if x = y then (0 : Nat) else 1) ≤ 1 := by split <;> omega
    rw [levenshtein_cons_cons]
    simp only [List.length_cons]
    refine le_trans (le_trans (min_le_right _ _) (min_le_right _ _)) ?_
    omega
termination_by A.length + B.length

/-- The unit-cost Levenshtein distance is symmetric. -/
theorem levenshtein_comm (A B : List Char) :
    levenshtein A B = levenshtein B A := by
  match A, B with
  | [], B =>
    simp [levenshtein_nil_left, levenshtein_nil_right]
  | x :: A', [] =>
    simp [levenshtein_nil_left, levenshtein_nil_right]
  | x :: A', y :: B' =>
    have ih1 := levenshtein_comm A' (y :: B')
    have ih2 := levenshtein_comm (x :: A') B'
    have ih3 := levenshtein_comm A' B'
    have hc : (if x = y then (0 : Nat) else 1) = (if y = x then 0 else 1) := by
      by_cases h : x = y
      · simp [h]
      · rw [if_neg h, if_neg (fun hh => h hh.symm)]
    rw [levenshtein_cons_cons, levenshtein_cons_cons y x B' A', ih1, ih2, ih3, hc]
    exact min_left_comm _ _ _
termination_by A.length + B.length

theorem levMatrix_zero_left (s1 s2 : List Char) (i : Nat) :
    levMatrix s1 s2 0 i = i := by
  simp [levMatrix]

theorem levMatrix_succ_zero (s1 s2 : List Char) (j : Nat) :
    levMatrix s1 s2 (j + 1) 0 = j + 1 := by
  simp [levMatrix]

theorem levMatrix_succ_succ (s1 s2 : List Char) (j i : Nat) :
    levMatrix s1 s2 (j + 1) (i + 1) =
      min (levMatrix s1 s2 (j + 1) i + 1)
        (min (levMatrix s1 s2 j (i + 1) + 1)
          (levMatrix s1 s2 j i + (if s1.getD i ' ' = s2.getD j ' ' then 0 else 1))) := by
  simp [levMatrix]

/-- Cell `matrix[j][i]` of the dynamic-programming matrix holds the
Levenshtein distance between the length-`i` prefix of `s1` and the
length-`j` prefix of `s2` (reversal does not change the distance). -/
theorem levMatrix_eq (s1 s2 : List Char) (j i : Nat) (hj : j ≤ s2.length)
    (hi : i ≤ s1.length) :
    levMatrix s1 s2 j i =
      levenshtein ((s1.take i).reverse) ((s2.take j).reverse) := by
  match j, i with
  | 0, i =>
    rw [levMatrix_zero_left]
    simp [levenshtein_nil_right, List.length_take, hi]
  | j + 1, 0 =>
    rw [levMatrix_succ_zero]
    simp [levenshtein_nil_left, List.length_take, hj]
  | j + 1, i + 1 =>
    have hi' : i < s1.length := by omega
    have hj' : j < s2.length := by omega
    have ih1 := levMatrix_eq s1 s2 (j + 1) i hj (by omega)
    have ih2 := levMatrix_eq s1 s2 j (i + 1) (by omega) hi
    have ih3 := levMatrix_eq s1 s2 j i (by omega) (by omega)
    have ht1 : s1.take (i + 1) = s1.take i ++ [s1[i]] := by
      rw [List.take_succ]
      simp [List.getElem?_eq_getElem hi']
    have ht2 : s2.take (j + 1) = s2.take j ++ [s2[j]] := by
      rw [List.take_succ]
      simp [List.getElem?_eq_getElem hj']
    have hg1 : s1.getD i ' ' = s1[i] := by
      simp [List.getD_eq_getElem?_getD, List.getElem?_eq_getElem hi']
    have hg2 : s2.getD j ' ' = s2[j] := by
      simp [List.getD_eq_getElem?_getD, List.getElem?_eq_getElem hj']
    rw [levMatrix_succ_succ, ih1, ih2, ih3, ht1, ht2]
    simp only [List.reverse_append, List.reverse_cons, List.reverse_nil,
      List.nil_append, List.singleton_append]
    rw [levenshtein_cons_cons, hg1, hg2]
termination_by (j, i)

/-- The bottom-right matrix cell read by the source
(`matrix[s2.length][s1.length]`) is the Levenshtein distance of the two
full strings. -/
theorem levMatrix_full (s1 s2 : List Char) :
    levMatrix s1 s2 s2.length s1.length = levenshtein s1 s2 := by
  rw [levMatrix_eq s1 s2 s2.length s1.length le_rfl le_rfl]
  simp [List.take_length, levenshtein_reverse]

/-! ### Properties of the similarity scorer -/

/-- `calculateSimilarity` agrees with the tiered description of §4.3:
case-folded equality scores 1, containment scores 0.8, and otherwise the
score is one minus the normalized textbook Levenshtein distance. -/
theorem calculateSimilarity_eq (str1 str2 : List Char) :
    calculateSimilarity str1 str2 =
      if tolow str1 = tolow str2 then 1
      else if tolow str2 <:+: tolow str1 ∨ tolow str1 <:+: tolow str2 then 8 / 10
      else 1 - (levenshtein (tolow str1) (tolow str2) : ℚ) /
          (max (tolow str1).length (tolow str2).length : ℚ) := by
  simp only [calculateSimilarity]
  by_cases h1 : tolow str1 = tolow str2
  · rw [if_pos h1, if_pos h1]
  · rw [if_neg h1, if_neg h1]
    by_cases h2 : tolow str2 <:+: tolow str1 ∨ tolow str1 <:+: tolow str2
    · rw [if_pos h2, if_pos h2]
    · rw [if_neg h2, if_neg h2]
      have hmax : ¬ max (tolow str1).length (tolow str2).length = 0 := by
        intro h
        apply h1
        rw [List.length_eq_zero.mp (show (tolow str1).length = 0 by omega),
          List.length_eq_zero.mp (show (tolow str2).length = 0 by omega)]
      rw [if_neg hmax, levMatrix_full, Nat.cast_max]

/-- If the case-folded strings differ, at least one of them is non-empty. -/
theorem tolow_max_pos (a b : List Char) (h : tolow a ≠ tolow b) :
    0 < max (tolow a).length (tolow b).length := by
  rcases Nat.eq_zero_or_pos (max (tolow a).length (tolow b).length) with h0 | h0
  · exfalso
    apply h
    rw [List.length_eq_zero.mp (show (tolow a).length = 0 by omega),
      List.length_eq_zero.mp (show (tolow b).length = 0 by omega)]
  · exact h0

theorem calculateSimilarity_nonneg (a b : List Char) :
    0 ≤ calculateSimilarity a b := by
  rw [calculateSimilarity_eq]
  split
  · norm_num
  · split
    · norm_num
    · rename_i h1 h2
      have hd := levenshtein_le_max (tolow a) (tolow b)
      have hmax := tolow_max_pos a b h1
      have hdq : (levenshtein (tolow a) (tolow b) : ℚ) ≤
          (max (tolow a).length (tolow b).length : ℚ) := by exact_mod_cast hd
      have hmq : (0 : ℚ) < (max (tolow a).length (tolow b).length : ℚ) := by
        exact_mod_cast hmax
      have hq := div_le_one_of_le₀ hdq (le_of_lt hmq)
      linarith

theorem calculateSimilarity_le_one (a b : List Char) :
    calculateSimilarity a b ≤ 1 := by
  rw [calculateSimilarity_eq]
  split
  · norm_num
  · split
    · norm_num
    · have hq : (0 : ℚ) ≤ (levenshtein (tolow a) (tolow b) : ℚ) /
          (max (tolow a).length (tolow b).length : ℚ) := by positivity
      linarith

/-! ### Stable sorting by a key, descending -/

/-- Sorting with the descending comparator permutes the input. -/
theorem mergeSortKey_perm {α β : Type} [LinearOrder β] (key : α → β) (l : List α) :
    (l.mergeSort (fun a b => decide (key b ≤ key a))).Perm l :=
  List.mergeSort_perm l _

/-- Sorting with the descending comparator yields a sequence whose keys are
non-increasing. -/
theorem mergeSortKey_pairwise {α β : Type} [LinearOrder β] (key : α → β)
    (l : List α) :
    (l.mergeSort (fun a b => decide (key b ≤ key a))).Pairwise
      (fun a b => key b ≤ key a) := by
  have htrans : ∀ (a b c : α), decide (key b ≤ key a) = true →
      decide (key c ≤ key b) = true → decide (key c ≤ key a) = true := by
    intro a b c hab hbc
    simp only [decide_eq_true_eq] at *
    exact le_trans hbc hab
  have htotal : ∀ (a b : α),
      (decide (key b ≤ key a) || decide (key a ≤ key b)) = true := by
    intro a b
    simp only [Bool.or_eq_true, decide_eq_true_eq]
    exact le_total (key b) (key a)
  have h := List.sorted_mergeSort htrans htotal l
  exact h.imp fun hab => by simpa using hab

/-- Stability of the descending sort: the elements carrying any fixed key
appear in the output in exactly the order they had in the input. -/
theorem mergeSortKey_filter {α β : Type} [LinearOrder β] [DecidableEq β]
    (key : α → β) (l : List α) (t : β) :
    (l.mergeSort (fun a b => decide (key b ≤ key a))).filter
        (fun a => decide (key a = t)) =
      l.filter (fun a => decide (key a = t)) := by
  have hkeys : ∀ a ∈ l.filter (fun a => decide (key a = t)), key a = t := by
    intro a ha
    simpa using (List.mem_filter.mp ha).2
  have hpair : (l.filter (fun a => decide (key a = t))).Pairwise
      (fun a b => decide (key b ≤ key a) = true) := by
    refine List.pairwise_of_forall_mem_list ?_
    intro a ha b hb
    rw [hkeys a ha, hkeys b hb]
    simp
  have htrans : ∀ (a b c : α), decide (key b ≤ key a) = true →
      decide (key c ≤ key b) = true → decide (key c ≤ key a) = true := by
    intro a b c hab hbc
    simp only [decide_eq_true_eq] at *
    exact le_trans hbc hab
  have htotal : ∀ (a b : α),
      (decide (key b ≤ key a) || decide (key a ≤ key b)) = true := by
    intro a b
    simp only [Bool.or_eq_true, decide_eq_true_eq]
    exact le_total (key b) (key a)
  have h1 := List.sublist_mergeSort htrans htotal hpair (List.filter_sublist l)
  have h2 : List.Sublist (l.filter (fun a => decide (key a = t)))
      ((l.mergeSort (fun a b => decide (key b ≤ key a))).filter
        (fun a => decide (key a = t))) := by
    have h3 := h1.filter (fun a => decide (key a = t))
    rwa [List.filter_eq_self.mpr (fun a ha => (List.mem_filter.mp ha).2)] at h3
  have h4 : ((l.mergeSort (fun a b => decide (key b ≤ key a))).filter
        (fun a => decide (key a = t))).Perm
      (l.filter (fun a => decide (key a = t))) :=
    (List.mergeSort_perm l _).filter _
  exact (h2.eq_of_length h4.length_eq.symm).symm

/-- C7: the Recency Sorter returns a copy of its input (a permutation — the
input itself is untouched, the embedding being pure) whose `modifiedTime`
keys are non-increasing, and records with equal timestamps keep their
relative input order. -/
theorem sortProjectsByDate_spec (l : List ProjectInfo) :
    (sortProjectsByDate l).Perm l ∧
    (sortProjectsByDate l).Pairwise (fun a b => b.modifiedTime ≤ a.modifiedTime) ∧
    ∀ t : Int, (sortProjectsByDate l).filter (fun p => decide (p.modifiedTime = t)) =
      l.filter (fun p => decide (p.modifiedTime = t)) :=
  ⟨mergeSortKey_perm (fun p : ProjectInfo => p.modifiedTime) l,
   mergeSortKey_pairwise (fun p : ProjectInfo => p.modifiedTime) l,
   fun t => mergeSortKey_filter (fun p : ProjectInfo => p.modifiedTime) l t⟩

/-- C10: `getLatestProject` returns `none` exactly on the empty list, and on
a non-empty list returns the first record in input order among those with
maximal `modifiedTime`. -/
theorem getLatestProject_spec (l : List ProjectInfo) :
    (getLatestProject l = none ↔ l = []) ∧
    ∀ r, getLatestProject l = some r →
      r ∈ l ∧ (∀ q ∈ l, q.modifiedTime ≤ r.modifiedTime) ∧
      (l.filter fun q => decide (q.modifiedTime = r.modifiedTime)).head? = some r := by
  by_cases hl : l = []
  · subst hl
    simp [getLatestProject]
  · have hlen : ¬ l.length = 0 := fun h => hl (List.length_eq_zero.mp h)
    have hperm : (sortProjectsByDate l).Perm l :=
      mergeSortKey_perm (fun p : ProjectInfo => p.modifiedTime) l
    have hsorted : (sortProjectsByDate l).Pairwise
        (fun a b => b.modifiedTime ≤ a.modifiedTime) :=
      mergeSortKey_pairwise (fun p : ProjectInfo => p.modifiedTime) l
    have hne : sortProjectsByDate l ≠ [] := by
      intro h
      rw [h] at hperm
      exact hl hperm.symm.eq_nil
    obtain ⟨r, rest, hcons⟩ := List.exists_cons_of_ne_nil hne
    have hres : getLatestProject l = some r := by
      simp only [getLatestProject, if_neg hlen, hcons, List.head?_cons]
    refine ⟨⟨fun h => absurd (hres ▸ h) (by simp), fun h => absurd h hl⟩, ?_⟩
    intro r' hr'
    rw [hres, Option.some_inj] at hr'
    subst hr'
    refine ⟨?_, ?_, ?_⟩
    · exact hperm.mem_iff.mp (by rw [hcons]; exact List.mem_cons_self r rest)
    · intro q hq
      have hq' : q ∈ sortProjectsByDate l := hperm.mem_iff.mpr hq
      rw [hcons] at hq'
      rcases List.mem_cons.mp hq' with h | h
      · rw [h]
      · have hp := hsorted
        rw [hcons] at hp
        exact (List.pairwise_cons.mp hp).1 q h
    · have hf := mergeSortKey_filter (fun p : ProjectInfo => p.modifiedTime) l
        r.modifiedTime
      rw [← hf]
      show ((sortProjectsByDate l).filter fun q =>
        decide (q.modifiedTime = r.modifiedTime)).head? = some r
      rw [hcons, List.filter_cons_of_pos (by simp)]
      simp

/-- Closed instance of C10 at a concrete one-element list. -/
theorem getLatestProject_spec_witness :
    wLatest ∈ [wLatest] ∧
    (([wLatest].filter fun q =>
      decide (q.modifiedTime = wLatest.modifiedTime)).head? = some wLatest) := by
  have h := (getLatestProject_spec [wLatest]).2 wLatest
    (by simp [getLatestProject, sortProjectsByDate])
  exact ⟨h.1, h.2.2⟩

/-- C9: a blank (empty or whitespace-only) query makes the Fuzzy Resolver
return the empty result set. -/
theorem fuzzyMatchProjects_blank_query (projects : List ProjectInfo)
    (searchTerm : List Char) (h : jsTrim searchTerm = []) :
    fuzzyMatchProjects projects searchTerm = [] := by
  simp only [fuzzyMatchProjects, if_pos h]

/-- Closed instance of C9 at a whitespace-only query. -/
theorem fuzzyMatchProjects_blank_query_witness :
    jsTrim ("  ".toList) = [] ∧
    fuzzyMatchProjects demoProjects ("  ".toList) = [] :=
  ⟨by decide, fuzzyMatchProjects_blank_query demoProjects ("  ".toList) (by decide)⟩

/-- C3: for a non-blank query the Fuzzy Resolver returns exactly the
candidates scoring strictly above 0.3 (as a permutation of the filtered
scored list, so none is omitted and none added), every returned score
exceeds 0.3, the result is sorted by descending score, and candidates with
equal scores keep their relative input order. -/
theorem fuzzyMatchProjects_spec (projects : List ProjectInfo)
    (searchTerm : List Char) (h : jsTrim searchTerm ≠ []) :
    (fuzzyMatchProjects projects searchTerm).Perm (fuzzyKept projects searchTerm) ∧
    (∀ m ∈ fuzzyMatchProjects projects searchTerm, (3 : ℚ) / 10 < m.score) ∧
    (∀ p ∈ projects, (3 : ℚ) / 10 < calculateSimilarity p.name searchTerm →
      ScoredMatch.mk p (calculateSimilarity p.name searchTerm) ∈
        fuzzyMatchProjects projects searchTerm) ∧
    (fuzzyMatchProjects projects searchTerm).Pairwise (fun a b => b.score ≤ a.score) ∧
    ∀ s : ℚ, (fuzzyMatchProjects projects searchTerm).filter
        (fun m => decide (m.score = s)) =
      (fuzzyKept projects searchTerm).filter (fun m => decide (m.score = s)) := by
  have hdef : fuzzyMatchProjects projects searchTerm =
      (fuzzyKept projects searchTerm).mergeSort
        (fun a b => decide (b.score ≤ a.score)) := by
    simp only [fuzzyMatchProjects, if_neg h]
  have hperm : (fuzzyMatchProjects projects searchTerm).Perm
      (fuzzyKept projects searchTerm) := by
    rw [hdef]
    exact mergeSortKey_perm (fun m : ScoredMatch => m.score) _
  refine ⟨hperm, ?_, ?_, ?_, ?_⟩
  · intro m hm
    have hk : m ∈ fuzzyKept projects searchTerm := hperm.mem_iff.mp hm
    simpa using (List.mem_filter.mp hk).2
  · intro p hp hscore
    apply hperm.mem_iff.mpr
    apply List.mem_filter.mpr
    exact ⟨List.mem_map_of_mem _ hp, by simpa using hscore⟩
  · rw [hdef]
    exact mergeSortKey_pairwise (fun m : ScoredMatch => m.score) _
  · intro s
    rw [hdef]
    exact mergeSortKey_filter (fun m : ScoredMatch => m.score) _ s

/-- Closed instance of C3 at a concrete query. -/
theorem fuzzyMatchProjects_spec_witness :
    jsTrim ("alg".toList) ≠ [] ∧
    (fuzzyMatchProjects demoProjects ("alg".toList)).Perm
      (fuzzyKept demoProjects ("alg".toList)) :=
  ⟨by decide, (fuzzyMatchProjects_spec demoProjects ("alg".toList) (by decide)).1⟩

/-- C4: the similarity scorer applies the tiered rules in priority order —
case-folded equality scores 1 (covering the both-empty case), otherwise
containment either way scores exactly 0.8, otherwise one minus the unit-cost
Levenshtein distance normalized by the longer length — and the result always
lies in [0, 1]. -/
theorem calculateSimilarity_spec (str1 str2 : List Char) :
    (calculateSimilarity str1 str2 =
      if tolow str1 = tolow str2 then 1
      else if tolow str2 <:+: tolow str1 ∨ tolow str1 <:+: tolow str2 then 8 / 10
      else 1 - (levenshtein (tolow str1) (tolow str2) : ℚ) /
          (max (tolow str1).length (tolow str2).length : ℚ)) ∧
    0 ≤ calculateSimilarity str1 str2 ∧ calculateSimilarity str1 str2 ≤ 1 :=
  ⟨calculateSimilarity_eq str1 str2, calculateSimilarity_nonneg str1 str2,
   calculateSimilarity_le_one str1 str2⟩

/-- C8: the similarity scorer is symmetric in its two arguments. -/
theorem calculateSimilarity_comm (a b : List Char) :
    calculateSimilarity a b = calculateSimilarity b a := by
  rw [calculateSimilarity_eq a b, calculateSimilarity_eq b a]
  by_cases h1 : tolow a = tolow b
  · rw [if_pos h1, if_pos h1.symm]
  · have h1x : ¬ tolow b = tolow a := fun h => h1 h.symm
    rw [if_neg h1, if_neg h1x]
    by_cases h2 : tolow b <:+: tolow a ∨ tolow a <:+: tolow b
    · have h2x : tolow a <:+: tolow b ∨ tolow b <:+: tolow a := h2.symm
      rw [if_pos h2, if_pos h2x]
    · have h2x : ¬ (tolow a <:+: tolow b ∨ tolow b <:+: tolow a) :=
        fun h => h2 h.symm
      rw [if_neg h2, if_neg h2x]
      rw [levenshtein_comm (tolow a) (tolow b),
        max_comm ((tolow a).length : ℚ) ((tolow b).length : ℚ)]

/-! ### The paginator -/

/-- C1 (counterexample): on the empty candidate list with requested page 3
and page size 10, `paginateResults` reports neither `totalPages = 1` nor
`currentPage = 1`; the claimed empty-input special case is absent. -/
theorem paginateResults_empty_cex :
    ¬ ((paginateResults ([] : List Nat) 3 10).totalPages = 1 ∧
       (paginateResults ([] : List Nat) 3 10).currentPage = 1) := by decide

/-- C1 (amended): for every page size ≥ 1 and any requested page, the
Paginator on the empty sequence returns `items = []`, `totalPages = 0`,
`currentPage = 0` and `totalItems = 0` — in particular `totalPages` is 0,
not 1. -/
theorem paginateResults_empty {T : Type} (page : Int) (pageSize : Nat)
    (h : 1 ≤ pageSize) :
    paginateResults ([] : List T) page pageSize = Page.mk [] 0 0 0 := by
  have h0 : (0 + pageSize - 1) / pageSize = 0 := Nat.div_eq_of_lt (by omega)
  simp only [paginateResults, jsSlice, List.length_nil, h0, Nat.cast_zero,
    List.drop_nil, List.take_nil, Page.mk.injEq, and_true, true_and]
  omega

/-- Closed instance of the amended C1. -/
theorem paginateResults_empty_witness :
    1 ≤ 10 ∧ paginateResults ([] : List Nat) 5 10 = Page.mk [] 0 0 0 :=
  ⟨by decide, paginateResults_empty 5 10 (by decide)⟩

/-! ### The directory scanner -/

/-- Model of `Promise.all` rejection: if any listed directory fails to stat,
the whole combined promise rejects. -/
theorem statAll_none (stat : List Char → Option Int) :
    ∀ (pds : List ProjectDir) (p : ProjectDir), p ∈ pds →
      stat p.fullPath = none → statAll stat pds = none
  | [], p, hmem, _ => absurd hmem (by simp)
  | q :: qs, p, hmem, hp => by
    rcases List.mem_cons.mp hmem with h | h
    · subst h
      simp [statAll, hp]
    · have hrec := statAll_none stat qs p h hp
      cases hstat : stat q.fullPath <;> simp [statAll, hstat, hrec]

/-- C2 (amended): a stat failure on any single directory entry aborts the
whole scan — `getProjectsList` returns `[]`, dropping even the entries whose
stat succeeded, because the rejected `Promise.all` lands in the `catch`. -/
theorem getProjectsList_stat_abort (dir : List Char)
    (readdir : List Char → Option (List DirEntry)) (stat : List Char → Option Int)
    (entries : List DirEntry) (hrd : readdir dir = some entries)
    (e : DirEntry) (he : e ∈ entries) (hdir : e.isDirectory = true)
    (hstat : stat (pathJoin dir e.name) = none) :
    getProjectsList (some dir) readdir stat = [] := by
  have hmem : ProjectDir.mk e.name (pathJoin dir e.name)
      (pathJoin ("Projects".toList) e.name) ∈
      (entries.filter fun en => en.isDirectory).map
        (fun en => ProjectDir.mk en.name (pathJoin dir en.name)
          (pathJoin ("Projects".toList) en.name)) :=
    List.mem_map_of_mem _ (List.mem_filter.mpr ⟨he, hdir⟩)
  have hnone := statAll_none stat _ _ hmem hstat
  simp only [getProjectsList, hrd, hnone]

/-- C2 (counterexample): with root `root` containing directories `a` and `b`,
where stat rejects on `a` but succeeds on `b` (with timestamp 5), the scan
returns no record at all for `b` — contradicting the claim that entries with
successful stats are still returned. -/
theorem getProjectsList_stat_cex :
    cexStat (pathJoin cexDir ("b".toList)) = some 5 ∧
    ¬ ∃ r ∈ getProjectsList (some cexDir) cexReaddir cexStat,
      r.name = "b".toList := by decide

/-- Closed instance of the amended C2. -/
theorem getProjectsList_stat_abort_witness :
    cexReaddir cexDir = some cexEntries ∧
    getProjectsList (some cexDir) cexReaddir cexStat = [] := by
  refine ⟨by decide, ?_⟩
  exact getProjectsList_stat_abort cexDir cexReaddir cexStat cexEntries (by decide)
    (DirEntry.mk ("a".toList) true) (by decide) (by decide) (by decide)

theorem pag_totalPages {T : Type} (items : List T) (page : Int) (ps : Nat) :
    (paginateResults items page ps).totalPages = (items.length + ps - 1) / ps := rfl

theorem pag_currentPage {T : Type} (items : List T) (page : Int) (ps : Nat) :
    (paginateResults items page ps).currentPage =
      min (max page 1) (((items.length + ps - 1) / ps : Nat) : Int) := rfl

theorem pag_items_def {T : Type} (items : List T) (page : Int) (ps : Nat) :
    (paginateResults items page ps).items =
      jsSlice items
        (((paginateResults items page ps).currentPage - 1) * (ps : Int))
        (((paginateResults items page ps).currentPage - 1) * (ps : Int) +
          (ps : Int)) := rfl

/-- A non-empty list yields at least one page. -/
theorem tp_one_le {T : Type} (items : List T) (ps : Nat) (h1 : items ≠ [])
    (h2 : 1 ≤ ps) : 1 ≤ (items.length + ps - 1) / ps := by
  have hn : 1 ≤ items.length := List.length_pos.mpr h1
  exact (Nat.le_div_iff_mul_le (by omega)).mpr (by omega)

/-- The last page starts strictly inside the list. -/
theorem tp_pred_mul_lt {T : Type} (items : List T) (ps : Nat) (h1 : items ≠ [])
    (h2 : 1 ≤ ps) :
    ((items.length + ps - 1) / ps - 1) * ps < items.length := by
  have hn : 1 ≤ items.length := List.length_pos.mpr h1
  have hceil : (items.length + ps - 1) / ps = (items.length - 1) / ps + 1 := by
    rw [show items.length + ps - 1 = (items.length - 1) + ps by omega,
      Nat.add_div_right _ (by omega)]
  rw [hceil]
  simp only [Nat.add_sub_cancel]
  have := Nat.div_mul_le_self (items.length - 1) ps
  omega

/-- On a non-empty list the served slice is the `pageSize`-wide window at
offset `(currentPage - 1) * pageSize`, clipped to the end of the list. -/
theorem paginateResults_items_core {T : Type} (items : List T) (page : Int)
    (ps : Nat) (h1 : items ≠ []) (h2 : 1 ≤ ps) :
    (paginateResults items page ps).items =
      (items.drop (((paginateResults items page ps).currentPage - 1).toNat * ps)).take
        ps := by
  have htp1 := tp_one_le items ps h1 h2
  have htp2 := tp_pred_mul_lt items ps h1 h2
  rw [pag_items_def, pag_currentPage]
  generalize hT : (items.length + ps - 1) / ps = tp at htp1 htp2 ⊢
  set cp : Int := min (max page 1) (tp : Int) with hcp
  have hcp1 : 1 ≤ cp := by omega
  have hcpt : cp ≤ (tp : Int) := by omega
  set k : Nat := (cp - 1).toNat with hk
  have hcpk : cp - 1 = (k : Int) := by omega
  have hkt : k ≤ tp - 1 := by omega
  have hklt : k * ps < items.length := by
    calc k * ps ≤ (tp - 1) * ps := Nat.mul_le_mul_right ps hkt
    _ < items.length := htp2
  have hstart : (cp - 1) * (ps : Int) = ((k * ps : Nat) : Int) := by
    rw [hcpk]
    push_cast
    ring
  rw [hstart]
  simp only [jsSlice]
  rw [if_neg (by omega), if_neg (by omega)]
  have hs : (min ((k * ps : Nat) : Int) ((items.length : Nat) : Int)).toNat =
      k * ps := by omega
  have he : (min (((k * ps : Nat) : Int) + (ps : Int)) ((items.length : Nat) : Int) -
      min ((k * ps : Nat) : Int) ((items.length : Nat) : Int)).toNat =
      min ps (items.length - k * ps) := by omega
  rw [hs, he]
  rcases le_or_lt ps (items.length - k * ps) with hc | hc
  · rw [Nat.min_eq_left hc]
  · have hlen : (items.drop (k * ps)).length = items.length - k * ps :=
      List.length_drop _ _
    rw [Nat.min_eq_right (le_of_lt hc), List.take_of_length_le (le_of_eq hlen),
      List.take_of_length_le (by rw [hlen]; omega)]

/-- C6: on a non-empty sequence with page size ≥ 1, the Paginator serves page
`clamp(requestedPage, 1, totalPages)` and returns the slice
`[(servedPage-1)*pageSize, (servedPage-1)*pageSize + pageSize)` clipped to
the sequence length. -/
theorem paginateResults_clamp {T : Type} (items : List T) (page : Int)
    (ps : Nat) (h1 : items ≠ []) (h2 : 1 ≤ ps) :
    (paginateResults items page ps).currentPage =
      min (max page 1) ((paginateResults items page ps).totalPages : Int) ∧
    (paginateResults items page ps).items =
      (items.drop (((paginateResults items page ps).currentPage - 1).toNat * ps)).take
        ps :=
  ⟨rfl, paginateResults_items_core items page ps h1 h2⟩

/-- Closed instance of C6 at the 25-item, page-1000, size-10 scenario. -/
theorem paginateResults_clamp_witness :
    ((List.range 25 ≠ []) ∧ 1 ≤ 10) ∧
    ((paginateResults (List.range 25) 1000 10).currentPage =
      min (max 1000 1) ((paginateResults (List.range 25) 1000 10).totalPages : Int) ∧
    (paginateResults (List.range 25) 1000 10).items =
      ((List.range 25).drop
        (((paginateResults (List.range 25) 1000 10).currentPage - 1).toNat * 10)).take
        10) :=
  ⟨⟨by decide, by decide⟩,
   paginateResults_clamp (List.range 25) 1000 10 (by decide) (by decide)⟩

/-- Splitting a list into consecutive `ps`-wide windows and concatenating
them reproduces the list. -/
theorem chunked_flatMap {T : Type} (ps : Nat) (h2 : 1 ≤ ps) (l : List T) :
    (List.range ((l.length + ps - 1) / ps)).flatMap
      (fun k => (l.drop (k * ps)).take ps) = l := by
  by_cases hl : l = []
  · subst hl
    rw [show (([] : List T).length + ps - 1) / ps = 0 from
      Nat.div_eq_of_lt (by simp; omega)]
    rfl
  · have hn : 1 ≤ l.length := List.length_pos.mpr hl
    have hceil : (l.length + ps - 1) / ps = (l.length - 1) / ps + 1 := by
      rw [show l.length + ps - 1 = (l.length - 1) + ps by omega,
        Nat.add_div_right _ (by omega)]
    have ih := chunked_flatMap ps h2 (l.drop ps)
    have hlen2 : (l.drop ps).length = l.length - ps := List.length_drop ps l
    have htp2 : ((l.drop ps).length + ps - 1) / ps = (l.length - 1) / ps := by
      rw [hlen2]
      rcases le_or_lt ps l.length with h | h
      · congr 1
        omega
      · rw [Nat.div_eq_of_lt (by omega), Nat.div_eq_of_lt (by omega)]
    rw [htp2] at ih
    have hfun : ∀ k ∈ List.range ((l.length - 1) / ps),
        (l.drop (Nat.succ k * ps)).take ps =
          ((l.drop ps).drop (k * ps)).take ps := by
      intro k _
      rw [List.drop_drop, Nat.succ_mul, Nat.add_comm (k * ps) ps]
    rw [hceil, List.range_succ_eq_map, List.flatMap_cons]
    simp only [Nat.zero_mul, List.drop_zero]
    rw [List.flatMap_map, List.flatMap_def, List.map_congr_left hfun,
      ← List.flatMap_def, ih, List.take_append_drop]
termination_by l.length
decreasing_by
  simp [List.length_drop]
  omega

/-- C5: concatenating the item slices of pages 1 through `totalPages`
reconstructs the original sequence exactly, with nothing duplicated or
omitted (for any page size ≥ 1; on an empty sequence `totalPages = 0` and
the concatenation over no pages is again the empty sequence). -/
theorem paginateResults_reconstruct {T : Type} (items : List T) (ps : Nat)
    (h2 : 1 ≤ ps) :
    (List.range (paginateResults items 1 ps).totalPages).flatMap
      (fun k => (paginateResults items ((k : Int) + 1) ps).items) = items := by
  by_cases hl : items = []
  · subst hl
    rw [pag_totalPages, show (([] : List T).length + ps - 1) / ps = 0 from
      Nat.div_eq_of_lt (by simp; omega)]
    rfl
  · rw [pag_totalPages]
    have hpage : ∀ k ∈ List.range ((items.length + ps - 1) / ps),
        (paginateResults items ((k : Int) + 1) ps).items =
          (items.drop (k * ps)).take ps := by
      intro k hk
      have hk' := List.mem_range.mp hk
      have hcp : ((min (max ((k : Int) + 1) 1)
          (((items.length + ps - 1) / ps : Nat) : Int)) - 1).toNat = k := by
        generalize (items.length + ps - 1) / ps = tp at hk' ⊢
        omega
      rw [paginateResults_items_core items ((k : Int) + 1) ps hl h2,
        pag_currentPage, hcp]
    rw [List.flatMap_def, List.map_congr_left hpage, ← List.flatMap_def]
    exact chunked_flatMap ps h2 items

/-- Closed instance of C5 on five items with page size 2. -/
theorem paginateResults_reconstruct_witness :
    1 ≤ 2 ∧
    (List.range (paginateResults (List.range 5) 1 2).totalPages).flatMap
      (fun k => (paginateResults (List.range 5) ((k : Int) + 1) 2).items) =
      List.range 5 :=
  ⟨by decide, paginateResults_reconstruct (List.range 5) 2 (by decide)⟩

end PlayCli
